import Mathlib

/-!
Verification of the viewfinder notification core
(`backend/db/notification.py`).

The development shallowly embeds the module's data model and operations:

* the JSON invalidation codec (`json.dumps` / `json.loads` as used by
  `Notification.GetInvalidate` / `Notification.SetInvalidate`);
* the `Notification` record and the table of committed records;
* `Notification.QueryLast` (descending range scan, limit 1);
* `Notification.TryClearBadge` (single-shot conditional create);
* `Notification.CreateForUser` (optimistic retry loop) together with its
  `_TryUpdate` helper, both as a sequential runner against a concrete
  table and as a loop over an abstract store environment that may fail
  writes (conflict or transient error) at any attempt.
-/

/-! ## JSON values

`Notification.SetInvalidate` stores `json.dumps(invalidate_dict)` and
`Notification.GetInvalidate` returns `json.loads(self.invalidate)`.  The
payload is an arbitrary nesting of mappings, sequences and scalars.  `JVal`
is that value space; `jsonDumps` and `jsonLoads` model the CPython `json`
module's default serialization (separators ", " and ": ", short escapes
for quote, backslash and common control characters, `\u00XX` for the
remaining control characters) and its parser. -/

inductive JVal : Type where
  | null : JVal
  | bool (b : Bool) : JVal
  | int (i : Int) : JVal
  | str (s : String) : JVal
  | arr (xs : List JVal) : JVal
  | obj (kvs : List (String × JVal)) : JVal
deriving Repr

/-- Opening brace character (written by code point to keep sources plain). -/
def lbrace : Char := Char.ofNat 123

/-- Closing brace character. -/
def rbrace : Char := Char.ofNat 125

/-- Decimal digit to its character. -/
def digitChar (d : Nat) : Char := Char.ofNat (48 + d)

/-- Decimal character list of a natural number, most significant first. -/
def natChars (n : Nat) : List Char :=
  if n = 0 then [digitChar 0] else ((Nat.digits 10 n).map digitChar).reverse

/-- Decimal character list of an integer (minus sign for negatives). -/
def intChars (i : Int) : List Char :=
  if i < 0 then '-' :: natChars i.natAbs else natChars i.natAbs

/-- Lowercase hexadecimal digit character, as CPython emits in escapes. -/
def hexDigitChar (m : Nat) : Char :=
  Char.ofNat (if m < 10 then 48 + m else 87 + m)

/-- Serialization of one character inside a JSON string literal. -/
def escChar (c : Char) : List Char :=
  if c = '"' then ['\\', '"']
  else if c = '\\' then ['\\', '\\']
  else if c = Char.ofNat 10 then ['\\', 'n']
  else if c = Char.ofNat 9 then ['\\', 't']
  else if c = Char.ofNat 13 then ['\\', 'r']
  else if c = Char.ofNat 8 then ['\\', 'b']
  else if c = Char.ofNat 12 then ['\\', 'f']
  else if c.toNat < 32 then
    ['\\', 'u', digitChar 0, digitChar 0,
     hexDigitChar (c.toNat / 16), hexDigitChar (c.toNat % 16)]
  else [c]

/-- Serialization of the body of a JSON string literal. -/
def escString : List Char → List Char
  | [] => []
  | c :: cs => escChar c ++ escString cs

mutual

/-- Character stream of the serialized form of a JSON value. -/
def dumpsV : JVal → List Char
  | .null => 'n' :: 'u' :: 'l' :: 'l' :: []
  | .bool b => if b then 't' :: 'r' :: 'u' :: 'e' :: [] else 'f' :: 'a' :: 'l' :: 's' :: 'e' :: []
  | .int i => intChars i
  | .str s => '"' :: (escString s.data ++ ['"'])
  | .arr [] => ['[', ']']
  | .arr (v :: vs) => '[' :: (dumpsV v ++ dumpsArrTail vs)
  | .obj [] => [lbrace, rbrace]
  | .obj (kv :: kvs) => lbrace :: (dumpsMember kv ++ dumpsObjTail kvs)

/-- Serialized form of one object member, `"key": value`. -/
def dumpsMember : String × JVal → List Char
  | (k, v) => '"' :: (escString k.data ++ '"' :: ':' :: ' ' :: dumpsV v)

/-- Serialized forms of the remaining array elements, ending in the bracket. -/
def dumpsArrTail : List JVal → List Char
  | [] => [']']
  | v :: vs => ',' :: ' ' :: (dumpsV v ++ dumpsArrTail vs)

/-- Serialized forms of the remaining object members, ending in the brace. -/
def dumpsObjTail : List (String × JVal) → List Char
  | [] => [rbrace]
  | kv :: kvs => ',' :: ' ' :: (dumpsMember kv ++ dumpsObjTail kvs)

end

/-- Model of `json.dumps` on the invalidation value space. -/
def jsonDumps (v : JVal) : String := String.mk (dumpsV v)

/-- Digit test on the code point, `0` through `9`. -/
def isDigitB (c : Char) : Bool := 48 ≤ c.toNat && c.toNat ≤ 57

/-- JSON insignificant whitespace test: space, tab, newline, carriage return. -/
def isWsB (c : Char) : Bool :=
  c.toNat = 32 || c.toNat = 9 || c.toNat = 10 || c.toNat = 13

/-- Drops leading insignificant whitespace. -/
def skipWs : List Char → List Char
  | [] => []
  | c :: cs => if isWsB c then skipWs cs else c :: cs

/-- Splits the longest leading run of decimal digits from the stream. -/
def takeDigits : List Char → List Char × List Char
  | [] => ([], [])
  | c :: cs =>
    if isDigitB c then
      let p := takeDigits cs
      (c :: p.1, p.2)
    else ([], c :: cs)

/-- Value of a digit character list, most significant first. -/
def digitsToNat (ds : List Char) : Nat :=
  ds.foldl (fun a c => 10 * a + (c.toNat - 48)) 0

/-- Parses a nonempty run of decimal digits as a natural number. -/
def parseNumber (s : List Char) : Option (Nat × List Char) :=
  let p := takeDigits s
  if p.1 = [] then none else some (digitsToNat p.1, p.2)

/-- Value of a hexadecimal digit character. -/
def hexVal (c : Char) : Option Nat :=
  if 48 ≤ c.toNat ∧ c.toNat ≤ 57 then some (c.toNat - 48)
  else if 97 ≤ c.toNat ∧ c.toNat ≤ 102 then some (c.toNat - 87)
  else if 65 ≤ c.toNat ∧ c.toNat ≤ 70 then some (c.toNat - 55)
  else none

/-- Meaning of a single-character escape inside a JSON string literal. -/
def unescChar (e : Char) : Option Char :=
  if e = '"' then some '"'
  else if e = '\\' then some '\\'
  else if e = '/' then some '/'
  else if e = 'n' then some (Char.ofNat 10)
  else if e = 't' then some (Char.ofNat 9)
  else if e = 'r' then some (Char.ofNat 13)
  else if e = 'b' then some (Char.ofNat 8)
  else if e = 'f' then some (Char.ofNat 12)
  else none

/-- Parses the body of a JSON string literal up to its closing quote. -/
def parseStringBody : List Char → Option (List Char × List Char)
  | [] => none
  | c :: cs =>
    if c = '"' then some ([], cs)
    else if c = '\\' then
      match cs with
      | [] => none
      | e :: cs2 =>
        if e = 'u' then
          match cs2 with
          | h1 :: h2 :: h3 :: h4 :: cs3 =>
            match hexVal h1, hexVal h2, hexVal h3, hexVal h4 with
            | some a, some b, some d, some e2 =>
              match parseStringBody cs3 with
              | some p =>
                some (Char.ofNat (4096 * a + 256 * b + 16 * d + e2) :: p.1, p.2)
              | none => none
            | _, _, _, _ => none
          | _ => none
        else
          match unescChar e with
          | some u =>
            match parseStringBody cs2 with
            | some p => some (u :: p.1, p.2)
            | none => none
          | none => none
    else
      match parseStringBody cs with
      | some p => some (c :: p.1, p.2)
      | none => none

mutual

/-- Fuelled parser for one JSON value at the head of the stream. -/
def parseVal : Nat → List Char → Option (JVal × List Char)
  | 0, _ => none
  | _ + 1, [] => none
  | fuel + 1, c :: cs =>
    if c = 'n' then
      match cs with
      | 'u' :: 'l' :: 'l' :: r => some (.null, r)
      | _ => none
    else if c = 't' then
      match cs with
      | 'r' :: 'u' :: 'e' :: r => some (.bool true, r)
      | _ => none
    else if c = 'f' then
      match cs with
      | 'a' :: 'l' :: 's' :: 'e' :: r => some (.bool false, r)
      | _ => none
    else if c = '-' then
      match parseNumber cs with
      | some (n, r) => some (.int (-(n : Int)), r)
      | none => none
    else if isDigitB c then
      match parseNumber (c :: cs) with
      | some (n, r) => some (.int (n : Int), r)
      | none => none
    else if c = '"' then
      match parseStringBody cs with
      | some (b, r) => some (.str (String.mk b), r)
      | none => none
    else if c = '[' then
      match skipWs cs with
      | [] => none
      | d :: r =>
        if d = ']' then some (.arr [], r)
        else
          match parseVal fuel (d :: r) with
          | some (v, r1) =>
            match parseArrTail fuel r1 with
            | some (vs, r2) => some (.arr (v :: vs), r2)
            | none => none
          | none => none
    else if c = lbrace then
      match skipWs cs with
      | [] => none
      | d :: r =>
        if d = rbrace then some (.obj [], r)
        else
          match parseMember fuel (d :: r) with
          | some (kv, r1) =>
            match parseObjTail fuel r1 with
            | some (kvs, r2) => some (.obj (kv :: kvs), r2)
            | none => none
          | none => none
    else none

/-- Fuelled parser for one `"key": value` object member. -/
def parseMember : Nat → List Char → Option ((String × JVal) × List Char)
  | 0, _ => none
  | _ + 1, [] => none
  | fuel + 1, c :: cs =>
    if c = '"' then
      match parseStringBody cs with
      | some (k, r1) =>
        match r1 with
        | ':' :: r2 =>
          match parseVal fuel (skipWs r2) with
          | some (v, r3) => some ((String.mk k, v), r3)
          | none => none
        | _ => none
      | none => none
    else none

/-- Fuelled parser for the array elements after the first, then the bracket. -/
def parseArrTail : Nat → List Char → Option (List JVal × List Char)
  | 0, _ => none
  | _ + 1, [] => none
  | fuel + 1, c :: cs =>
    if c = ']' then some ([], cs)
    else if c = ',' then
      match parseVal fuel (skipWs cs) with
      | some (v, r1) =>
        match parseArrTail fuel r1 with
        | some (vs, r2) => some (v :: vs, r2)
        | none => none
      | none => none
    else none

/-- Fuelled parser for the object members after the first, then the brace. -/
def parseObjTail : Nat → List Char → Option (List (String × JVal) × List Char)
  | 0, _ => none
  | _ + 1, [] => none
  | fuel + 1, c :: cs =>
    if c = rbrace then some ([], cs)
    else if c = ',' then
      match parseMember fuel (skipWs cs) with
      | some (kv, r1) =>
        match parseObjTail fuel r1 with
        | some (kvs, r2) => some (kv :: kvs, r2)
        | none => none
      | none => none
    else none

end

/-- Model of `json.loads` on the invalidation value space. -/
def jsonLoads (s : String) : Option JVal :=
  match parseVal (s.data.length + 1) (skipWs s.data) with
  | some (v, r) => if skipWs r = [] then some v else none
  | none => none

/-! ## Codec round-trip lemmas -/

theorem char_eq_of_toNat {c d : Char} (h : c.toNat = d.toNat) : c = d := by
  rw [← Char.ofNat_toNat c, h, Char.ofNat_toNat]

theorem digitChar_toNat : ∀ d : Nat, d < 10 → (digitChar d).toNat = 48 + d := by
  decide

theorem isDigitB_digitChar : ∀ d : Nat, d < 10 → isDigitB (digitChar d) = true := by
  decide

theorem hexVal_hexDigitChar : ∀ m : Nat, m < 16 → hexVal (hexDigitChar m) = some m := by
  decide

theorem toNat_bounds_of_isDigitB {c : Char} (h : isDigitB c = true) :
    48 ≤ c.toNat ∧ c.toNat ≤ 57 := by
  simpa [isDigitB] using h

theorem ne_of_toNat_ne {c d : Char} (h : c.toNat ≠ d.toNat) : c ≠ d :=
  fun e => h (e ▸ rfl)

/-- A digit character is none of the characters the value parser
dispatches on before reaching the number branch, and it is not
whitespace, a bracket, a brace, a comma or a quote. -/
theorem digit_char_ne {c : Char} (h : isDigitB c = true) :
    c ≠ 'n' ∧ c ≠ 't' ∧ c ≠ 'f' ∧ c ≠ '-' ∧ c ≠ '"' ∧ c ≠ '[' ∧ c ≠ lbrace ∧
      c ≠ ']' ∧ c ≠ rbrace ∧ c ≠ ',' ∧ isWsB c = false := by
  obtain ⟨h1, h2⟩ := toNat_bounds_of_isDigitB h
  refine ⟨ne_of_toNat_ne ?_, ne_of_toNat_ne ?_, ne_of_toNat_ne ?_, ne_of_toNat_ne ?_,
    ne_of_toNat_ne ?_, ne_of_toNat_ne ?_, ne_of_toNat_ne ?_, ne_of_toNat_ne ?_,
    ne_of_toNat_ne ?_, ne_of_toNat_ne ?_, ?_⟩
  · show c.toNat ≠ 110; omega
  · show c.toNat ≠ 116; omega
  · show c.toNat ≠ 102; omega
  · show c.toNat ≠ 45; omega
  · show c.toNat ≠ 34; omega
  · show c.toNat ≠ 91; omega
  · show c.toNat ≠ 123; omega
  · show c.toNat ≠ 93; omega
  · show c.toNat ≠ 125; omega
  · show c.toNat ≠ 44; omega
  · simp only [isWsB, Bool.or_eq_false_iff, decide_eq_false_iff_not]
    omega

/-- The remainder stream does not begin with a decimal digit. -/
def noDigHead : List Char → Prop
  | [] => True
  | c :: _ => isDigitB c = false

theorem natChars_ne_nil (n : Nat) : natChars n ≠ [] := by
  unfold natChars
  split
  · simp
  · simp [Nat.digits_ne_nil_iff_ne_zero, *]

theorem natChars_all_digits (n : Nat) : ∀ c ∈ natChars n, isDigitB c = true := by
  intro c hc
  unfold natChars at hc
  split at hc
  · simp at hc
    subst hc
    decide
  · simp only [List.mem_reverse, List.mem_map] at hc
    obtain ⟨d, hd, rfl⟩ := hc
    exact isDigitB_digitChar d (Nat.digits_lt_base (by norm_num) hd)

theorem takeDigits_append (L rest : List Char) (hL : ∀ c ∈ L, isDigitB c = true)
    (hrest : noDigHead rest) : takeDigits (L ++ rest) = (L, rest) := by
  induction L with
  | nil =>
    cases rest with
    | nil => rfl
    | cons c cs =>
      simp only [noDigHead] at hrest
      simp [takeDigits, hrest]
  | cons c cs ih =>
    have hc := hL c (by simp)
    simp only [List.cons_append, takeDigits, hc, if_pos, List.append_eq]
    rw [ih (fun x hx => hL x (by simp [hx]))]

theorem foldl_digitChars (L : List Nat) (hL : ∀ d ∈ L, d < 10) (a : Nat) :
    List.foldl (fun a c => 10 * a + (c.toNat - 48)) a ((L.map digitChar).reverse) =
      a * 10 ^ L.length + Nat.ofDigits 10 L := by
  induction L generalizing a with
  | nil => simp [Nat.ofDigits_nil]
  | cons d L ih =>
    have hd : d < 10 := hL d (by simp)
    simp only [List.map_cons, List.reverse_cons, List.foldl_append, List.foldl_cons,
      List.foldl_nil]
    rw [ih (fun x hx => hL x (by simp [hx])), digitChar_toNat d hd, Nat.ofDigits_cons,
      Nat.add_sub_cancel_left, List.length_cons, pow_succ]
    ring

theorem digitsToNat_natChars (n : Nat) : digitsToNat (natChars n) = n := by
  unfold natChars digitsToNat
  split
  · subst n
    decide
  · rw [foldl_digitChars _ (fun d hd => Nat.digits_lt_base (by norm_num) hd) 0,
      Nat.ofDigits_digits]
    ring

theorem parseNumber_natChars (n : Nat) (rest : List Char) (hrest : noDigHead rest) :
    parseNumber (natChars n ++ rest) = some (n, rest) := by
  unfold parseNumber
  rw [takeDigits_append _ _ (natChars_all_digits n) hrest]
  simp [natChars_ne_nil n, digitsToNat_natChars]

theorem parseStringBody_escString (L rest : List Char) :
    parseStringBody (escString L ++ '"' :: rest) = some (L, rest) := by
  induction L with
  | nil =>
    show parseStringBody ('"' :: rest) = some ([], rest)
    rw [parseStringBody.eq_def]; simp
  | cons c L ih =>
    simp only [escString, List.append_assoc]
    by_cases h1 : c = '"'
    · subst h1
      simp only [escChar, if_pos rfl, List.cons_append, List.nil_append]
      rw [parseStringBody.eq_def]
      simp [unescChar, ih]
    by_cases h2 : c = '\\'
    · subst h2
      simp only [escChar, h1, if_false, if_pos rfl, if_neg, List.cons_append, List.nil_append]
      rw [parseStringBody.eq_def]
      simp [unescChar, ih]
    by_cases h3 : c = Char.ofNat 10
    · subst h3
      simp [escChar]
      rw [parseStringBody.eq_def]
      simp [unescChar, ih]
    by_cases h4 : c = Char.ofNat 9
    · subst h4
      simp [escChar]
      rw [parseStringBody.eq_def]
      simp [unescChar, ih]
    by_cases h5 : c = Char.ofNat 13
    · subst h5
      simp [escChar]
      rw [parseStringBody.eq_def]
      simp [unescChar, ih]
    by_cases h6 : c = Char.ofNat 8
    · subst h6
      simp [escChar]
      rw [parseStringBody.eq_def]
      simp [unescChar, ih]
    by_cases h7 : c = Char.ofNat 12
    · subst h7
      simp [escChar]
      rw [parseStringBody.eq_def]
      simp [unescChar, ih]
    by_cases h8 : c.toNat < 32
    · have hdiv : c.toNat / 16 < 16 := by omega
      have hmod : c.toNat % 16 < 16 := Nat.mod_lt _ (by norm_num)
      have h0 : hexVal (digitChar 0) = some 0 := by decide
      have hargA : 4096 * 0 + 256 * 0 + 16 * (c.toNat / 16) + c.toNat % 16 = c.toNat := by
        omega
      have hargB : 16 * (c.toNat / 16) + c.toNat % 16 = c.toNat := by omega
      simp only [escChar, h1, h2, h3, h4, h5, h6, h7, h8, if_true, if_false, if_neg,
        if_pos, List.cons_append, List.nil_append]
      rw [parseStringBody.eq_def]
      simp [h0, hexVal_hexDigitChar _ hdiv, hexVal_hexDigitChar _ hmod, ih, hargA, hargB,
        Char.ofNat_toNat]
    · simp only [escChar, h1, h2, h3, h4, h5, h6, h7, h8, if_true, if_false, if_neg,
        if_pos, List.cons_append, List.nil_append]
      rw [parseStringBody.eq_def]
      simp [h1, h2, ih]

theorem skipWs_cons_of {c : Char} (cs : List Char) (h : isWsB c = false) :
    skipWs (c :: cs) = c :: cs := by
  simp [skipWs, h]

theorem skipWs_space (cs : List Char) : skipWs (' ' :: cs) = skipWs cs := by
  simp [skipWs, show isWsB ' ' = true from rfl]

/-- The serialized form of any value begins with a character that is not
whitespace and not a closing bracket. -/
theorem dumpsV_head (v : JVal) :
    ∃ c t, dumpsV v = c :: t ∧ isWsB c = false ∧ c ≠ ']' := by
  cases v with
  | null => exact ⟨'n', _, rfl, by decide, by decide⟩
  | bool b => cases b
              · exact ⟨'f', _, rfl, by decide, by decide⟩
              · exact ⟨'t', _, rfl, by decide, by decide⟩
  | int i =>
    by_cases hi : i < 0
    · exact ⟨'-', natChars i.natAbs, by simp [dumpsV, intChars, hi], by decide, by decide⟩
    · cases hnc : natChars i.natAbs with
      | nil => exact absurd hnc (natChars_ne_nil _)
      | cons c t =>
        have hc : isDigitB c = true :=
          natChars_all_digits i.natAbs c (by rw [hnc]; exact List.mem_cons_self c t)
        obtain ⟨-, -, -, -, -, -, -, hrb, -, -, hws⟩ := digit_char_ne hc
        exact ⟨c, t, by simp [dumpsV, intChars, hi, hnc], hws, hrb⟩
  | str s => exact ⟨'"', _, rfl, by decide, by decide⟩
  | arr xs =>
    cases xs with
    | nil => exact ⟨'[', _, rfl, by decide, by decide⟩
    | cons v vs => exact ⟨'[', _, rfl, by decide, by decide⟩
  | obj kvs =>
    cases kvs with
    | nil => exact ⟨lbrace, _, rfl, by decide, by decide⟩
    | cons kv kvs => exact ⟨lbrace, _, rfl, by decide, by decide⟩

theorem dumpsV_length_pos (v : JVal) : 1 ≤ (dumpsV v).length := by
  obtain ⟨c, t, h, -, -⟩ := dumpsV_head v
  simp [h]

theorem dumpsArrTail_length_pos (vs : List JVal) : 1 ≤ (dumpsArrTail vs).length := by
  cases vs <;> simp [dumpsArrTail]

theorem dumpsObjTail_length_pos (kvs : List (String × JVal)) :
    1 ≤ (dumpsObjTail kvs).length := by
  cases kvs <;> simp [dumpsObjTail]

theorem dumpsMember_length_pos (kv : String × JVal) : 1 ≤ (dumpsMember kv).length := by
  obtain ⟨k, v⟩ := kv
  simp [dumpsMember]

theorem noDig_arrTail (vs : List JVal) (rest : List Char) :
    noDigHead (dumpsArrTail vs ++ rest) := by
  cases vs <;> simp [dumpsArrTail, noDigHead] <;> decide

theorem noDig_objTail (kvs : List (String × JVal)) (rest : List Char) :
    noDigHead (dumpsObjTail kvs ++ rest) := by
  cases kvs <;> simp [dumpsObjTail, noDigHead] <;> decide

theorem isDigitB_quote : isDigitB '"' = false := by decide
theorem isDigitB_lbracket : isDigitB '[' = false := by decide
theorem isDigitB_lbrace : isDigitB lbrace = false := by decide
theorem isWsB_rbracket : isWsB ']' = false := by decide
theorem isWsB_rbrace : isWsB rbrace = false := by decide

theorem lbrace_ne_kw :
    lbrace ≠ 'n' ∧ lbrace ≠ 't' ∧ lbrace ≠ 'f' ∧ lbrace ≠ '-' ∧ lbrace ≠ '"' ∧
      lbrace ≠ '[' := by
  decide

theorem quote_ne_rbrace : ('"' : Char) ≠ rbrace := by decide

theorem comma_ne_rbrace : (',' : Char) ≠ rbrace := by decide

theorem skipWs_dumpsV (v : JVal) (X : List Char) :
    skipWs (dumpsV v ++ X) = dumpsV v ++ X := by
  obtain ⟨c, t, hct, hws, -⟩ := dumpsV_head v
  rw [hct, List.cons_append, skipWs_cons_of _ hws]

theorem skipWs_dumpsMember (kv : String × JVal) (X : List Char) :
    skipWs (dumpsMember kv ++ X) = dumpsMember kv ++ X := by
  obtain ⟨k, v⟩ := kv
  rw [show dumpsMember (k, v) ++ X
      = '"' :: (escString k.data ++ '"' :: ':' :: ' ' :: dumpsV v ++ X) from by
    simp [dumpsMember]]
  exact skipWs_cons_of _ (by decide)

set_option maxHeartbeats 1000000 in
theorem parse_dumps (fuel : Nat) :
    (∀ v rest, (dumpsV v).length ≤ fuel → noDigHead rest →
      parseVal fuel (dumpsV v ++ rest) = some (v, rest)) ∧
    (∀ kv rest, (dumpsMember kv).length ≤ fuel → noDigHead rest →
      parseMember fuel (dumpsMember kv ++ rest) = some (kv, rest)) ∧
    (∀ vs rest, (dumpsArrTail vs).length ≤ fuel →
      parseArrTail fuel (dumpsArrTail vs ++ rest) = some (vs, rest)) ∧
    (∀ kvs rest, (dumpsObjTail kvs).length ≤ fuel →
      parseObjTail fuel (dumpsObjTail kvs ++ rest) = some (kvs, rest)) := by
  induction fuel with
  | zero =>
    refine ⟨fun v rest hlen _ => ?_, fun kv rest hlen _ => ?_,
      fun vs rest hlen => ?_, fun kvs rest hlen => ?_⟩
    · have h1 := dumpsV_length_pos v
      exact absurd hlen (by omega)
    · have h1 := dumpsMember_length_pos kv
      exact absurd hlen (by omega)
    · have h1 := dumpsArrTail_length_pos vs
      exact absurd hlen (by omega)
    · have h1 := dumpsObjTail_length_pos kvs
      exact absurd hlen (by omega)
  | succ F ih =>
    obtain ⟨ihV, ihM, ihA, ihO⟩ := ih
    refine ⟨fun v rest hlen hrest => ?_, fun kv rest hlen hrest => ?_,
      fun vs rest hlen => ?_, fun kvs rest hlen => ?_⟩
    · -- parseVal on a serialized value
      cases v with
      | null =>
        rw [parseVal.eq_def]
        simp [dumpsV]
      | bool b =>
        cases b
        · rw [parseVal.eq_def]
          simp [dumpsV]
        · rw [parseVal.eq_def]
          simp [dumpsV]
      | int i =>
        by_cases hi : i < 0
        · have hneg : -((i.natAbs : Nat) : Int) = i := by omega
          rw [show dumpsV (.int i) = '-' :: natChars i.natAbs from by
            simp [dumpsV, intChars, hi]]
          rw [parseVal.eq_def]
          simp [parseNumber_natChars _ _ hrest, abs_of_neg hi]
        · have hpos : ((i.natAbs : Nat) : Int) = i := by omega
          cases hnc : natChars i.natAbs with
          | nil => exact absurd hnc (natChars_ne_nil _)
          | cons c t =>
            have hc : isDigitB c = true :=
              natChars_all_digits i.natAbs c (by rw [hnc]; exact List.mem_cons_self c t)
            obtain ⟨k1, k2, k3, k4, -, -, -, -, -, -, -⟩ := digit_char_ne hc
            rw [show dumpsV (.int i) = c :: t from by simp [dumpsV, intChars, hi, hnc]]
            rw [parseVal.eq_def]
            simp only [List.cons_append, k1, k2, k3, k4, hc, if_false, if_true, if_neg,
              if_pos, not_false_eq_true]
            rw [show c :: (t ++ rest) = natChars i.natAbs ++ rest from by rw [hnc]; simp]
            rw [parseNumber_natChars _ _ hrest]
            simp [hpos]
      | str s =>
        rw [show dumpsV (.str s) ++ rest = '"' :: (escString s.data ++ '"' :: rest) from by
          simp [dumpsV]]
        rw [parseVal.eq_def]
        simp [isDigitB_quote, parseStringBody_escString]
      | arr xs =>
        cases xs with
        | nil =>
          rw [show dumpsV (.arr []) ++ rest = '[' :: ']' :: rest from by simp [dumpsV]]
          rw [parseVal.eq_def]
          simp [isDigitB_lbracket, skipWs, isWsB_rbracket]
        | cons v vs =>
          obtain ⟨c, t, hct, hws, hrb⟩ := dumpsV_head v
          have hp1 := dumpsV_length_pos v
          have hp2 := dumpsArrTail_length_pos vs
          have hlen2 : (dumpsV v).length + (dumpsArrTail vs).length ≤ F := by
            simp [dumpsV] at hlen
            omega
          have hlenV : (dumpsV v).length ≤ F := by omega
          have hlenA : (dumpsArrTail vs).length ≤ F := by omega
          rw [show dumpsV (.arr (v :: vs)) ++ rest
              = '[' :: (dumpsV v ++ (dumpsArrTail vs ++ rest)) from by simp [dumpsV]]
          rw [parseVal.eq_def]
          rw [hct, List.cons_append]
          simp only [isDigitB_lbracket, skipWs_cons_of _ hws, List.cons_append]
          rw [show c :: (t ++ (dumpsArrTail vs ++ rest))
              = dumpsV v ++ (dumpsArrTail vs ++ rest) from by rw [hct]; simp]
          rw [ihV v _ hlenV (noDig_arrTail vs rest)]
          simp [hrb, ihA vs rest hlenA]
      | obj kvs =>
        cases kvs with
        | nil =>
          obtain ⟨q1, q2, q3, q4, q5, q6⟩ := lbrace_ne_kw
          rw [show dumpsV (.obj []) ++ rest = lbrace :: rbrace :: rest from by simp [dumpsV]]
          rw [parseVal.eq_def]
          simp [isDigitB_lbrace, skipWs, isWsB_rbrace, q1, q2, q3, q4, q5, q6]
        | cons kv kvs2 =>
          obtain ⟨k, v⟩ := kv
          have hp1 := dumpsMember_length_pos (k, v)
          have hp2 := dumpsObjTail_length_pos kvs2
          have hlen2 : (dumpsMember (k, v)).length + (dumpsObjTail kvs2).length ≤ F := by
            simp only [dumpsV, List.length_cons, List.length_append] at hlen
            omega
          have hlenM : (dumpsMember (k, v)).length ≤ F := by omega
          have hlenO : (dumpsObjTail kvs2).length ≤ F := by omega
          rw [show dumpsV (.obj ((k, v) :: kvs2)) ++ rest
              = lbrace :: (dumpsMember (k, v) ++ (dumpsObjTail kvs2 ++ rest)) from by
            simp [dumpsV]]
          rw [parseVal.eq_def]
          rw [show dumpsMember (k, v) ++ (dumpsObjTail kvs2 ++ rest)
              = '"' :: (escString k.data ++ '"' :: ':' :: ' ' :: dumpsV v
                  ++ (dumpsObjTail kvs2 ++ rest)) from by simp [dumpsMember]]
          obtain ⟨q1, q2, q3, q4, q5, q6⟩ := lbrace_ne_kw
          simp only [isDigitB_lbrace, q1, q2, q3, q4, q5, q6, quote_ne_rbrace,
            skipWs_cons_of _ (show isWsB '"' = false from by decide), if_neg,
            not_false_eq_true, if_false, List.cons_append]
          rw [show ('"' : Char) :: (escString k.data ++ '"' :: ':' :: ' ' :: dumpsV v
                  ++ (dumpsObjTail kvs2 ++ rest))
              = dumpsMember (k, v) ++ (dumpsObjTail kvs2 ++ rest) from by simp [dumpsMember]]
          rw [ihM (k, v) _ hlenM (noDig_objTail kvs2 rest)]
          simp [ihO kvs2 rest hlenO]
    · -- parseMember on a serialized member
      obtain ⟨k, v⟩ := kv
      have hlenV : (dumpsV v).length ≤ F := by
        simp only [dumpsMember, List.length_cons, List.length_append] at hlen
        omega
      rw [show dumpsMember (k, v) ++ rest
          = '"' :: (escString k.data ++ '"' :: ':' :: ' ' :: (dumpsV v ++ rest)) from by
        simp [dumpsMember]]
      rw [parseMember.eq_def]
      simp only [if_pos rfl, parseStringBody_escString, skipWs_space, skipWs_dumpsV]
      rw [ihV v rest hlenV hrest]
      simp
    · -- parseArrTail on serialized trailing elements
      cases vs with
      | nil =>
        rw [show dumpsArrTail [] ++ rest = ']' :: rest from by simp [dumpsArrTail]]
        rw [parseArrTail.eq_def]
        simp
      | cons v vs2 =>
        have hp1 := dumpsV_length_pos v
        have hp2 := dumpsArrTail_length_pos vs2
        have hlen2 : (dumpsV v).length + (dumpsArrTail vs2).length ≤ F := by
          simp only [dumpsArrTail, List.length_cons, List.length_append] at hlen
          omega
        have hlenV : (dumpsV v).length ≤ F := by omega
        have hlenA : (dumpsArrTail vs2).length ≤ F := by omega
        rw [show dumpsArrTail (v :: vs2) ++ rest
            = ',' :: ' ' :: (dumpsV v ++ (dumpsArrTail vs2 ++ rest)) from by
          simp [dumpsArrTail]]
        rw [parseArrTail.eq_def]
        simp only [skipWs_space, skipWs_dumpsV]
        rw [ihV v _ hlenV (noDig_arrTail vs2 rest)]
        simp [ihA vs2 rest hlenA]
    · -- parseObjTail on serialized trailing members
      cases kvs with
      | nil =>
        rw [show dumpsObjTail [] ++ rest = rbrace :: rest from by simp [dumpsObjTail]]
        rw [parseObjTail.eq_def]
        simp
      | cons kv kvs2 =>
        have hp1 := dumpsMember_length_pos kv
        have hp2 := dumpsObjTail_length_pos kvs2
        have hlen2 : (dumpsMember kv).length + (dumpsObjTail kvs2).length ≤ F := by
          simp only [dumpsObjTail, List.length_cons, List.length_append] at hlen
          omega
        have hlenM : (dumpsMember kv).length ≤ F := by omega
        have hlenO : (dumpsObjTail kvs2).length ≤ F := by omega
        rw [show dumpsObjTail (kv :: kvs2) ++ rest
            = ',' :: ' ' :: (dumpsMember kv ++ (dumpsObjTail kvs2 ++ rest)) from by
          simp [dumpsObjTail]]
        rw [parseObjTail.eq_def]
        simp only [skipWs_space, skipWs_dumpsMember, comma_ne_rbrace, if_neg,
          not_false_eq_true, if_false]
        rw [ihM kv _ hlenM (noDig_objTail kvs2 rest)]
        simp [ihO kvs2 rest hlenO]

/-- Losslessness of the invalidation codec: parsing a serialized value
recovers it exactly. -/
theorem jsonLoads_jsonDumps (v : JVal) : jsonLoads (jsonDumps v) = some v := by
  have hmain := (parse_dumps ((dumpsV v).length + 1)).1 v [] (Nat.le_succ _) trivial
  rw [List.append_nil] at hmain
  unfold jsonLoads jsonDumps
  rw [show (String.mk (dumpsV v)).data = dumpsV v from rfl]
  rw [show skipWs (dumpsV v) = dumpsV v from by
    conv_lhs => rw [← List.append_nil (dumpsV v)]
    rw [skipWs_dumpsV, List.append_nil]]
  rw [hmain]
  simp [skipWs]

/-! ## Notification data model

The record and operations of `backend/db/notification.py`.  The key-value
store (DynamoDB behind `DBRangeObject`) is modeled as the list of committed
records; its two contract operations — descending range scan and atomic
conditional create (the `expected` argument of `Update`, requiring the
`notification_id` attribute, hence the item, to be absent) — are
`RangeQueryDesc` and `condCreate`. -/

/-- Operation-context contract: the triggering operation supplies
`user_id`, `device_id`, `operation_id` and `timestamp`. -/
structure OpContext where
  user_id : Nat
  device_id : Nat
  operation_id : String
  timestamp : Nat
deriving Repr, DecidableEq

/-- The notification record, keyed by `(user_id, notification_id)`.
Attributes the Python object never assigns stay absent (`none`); scalar
attributes that every modeled path assigns are plain values. -/
structure Notification where
  user_id : Nat := 0
  notification_id : Nat := 0
  name : String := ""
  timestamp : Nat := 0
  sender_id : Nat := 0
  sender_device_id : Nat := 0
  op_id : Option String := none
  badge : Nat := 0
  invalidate : Option String := none
  activity_id : Option String := none
  viewpoint_id : Option String := none
  update_seq : Option Nat := none
  viewed_seq : Option Nat := none
deriving Repr, DecidableEq

namespace Notification

/-- `GetInvalidate`: parses and returns the JSON `invalidate` attribute,
or the absent value when the attribute was never set. -/
def GetInvalidate (n : Notification) : Option JVal :=
  match n.invalidate with
  | some s => jsonLoads s
  | none => none

/-- `SetInvalidate`: stores the invalidation value as its JSON
serialization in the `invalidate` attribute. -/
def SetInvalidate (n : Notification) (invalidate_dict : JVal) : Notification :=
  { n with invalidate := some (jsonDumps invalidate_dict) }

end Notification

/-- The table of committed notification records. -/
abbrev Table := List Notification

/-- Does a record with the given composite primary key exist? -/
def keyMem (t : Table) (uid nid : Nat) : Bool :=
  t.any fun r => r.user_id == uid && r.notification_id == nid

/-- The store's atomic conditional create: commits the record only if no
record currently exists at `(user_id, notification_id)`; on conflict it
fails without side effect.  This is `Update` with
`expected={'notification_id': False}`. -/
def condCreate (t : Table) (n : Notification) : Table × Bool :=
  if keyMem t n.user_id n.notification_id then (t, false) else (t ++ [n], true)

/-- Store error taxonomy at the write: the conditional-write predicate
failed (`conflict`), or the store failed transiently (I/O, timeout,
throttling). -/
inductive StoreErr : Type where
  | conflict : StoreErr
  | transient : StoreErr
deriving Repr, DecidableEq

/-- `_TryUpdate`'s result conversion: the `try` block returns `True` on a
successful write and catches every exception, converting it to `False` so
the caller retries. -/
def tryUpdateResult : Except StoreErr Unit → Bool
  | .ok _ => true
  | .error _ => false

namespace Notification

/-- Sort-key order of the descending scan: later records first. -/
def notifGE (a b : Notification) : Prop := b.notification_id ≤ a.notification_id

instance : DecidableRel notifGE := fun a b => Nat.decLe b.notification_id a.notification_id

instance : IsTotal Notification notifGE :=
  ⟨fun a b => Nat.le_total b.notification_id a.notification_id⟩

instance : IsTrans Notification notifGE :=
  ⟨fun _ _ _ h1 h2 => Nat.le_trans h2 h1⟩

/-- The store's descending range scan over `notification_id` for one
`user_id` with a limit (`RangeQuery` with `scan_forward=False`). -/
def RangeQueryDesc (t : Table) (user_id : Nat) (limit : Nat) : List Notification :=
  ((t.filter fun r => r.user_id == user_id).insertionSort notifGE).take limit

/-- `QueryLast`: the notification with the highest `notification_id`, or
the absent value when the user has none — the head of the descending
range scan with limit 1.  The table is read, never written. -/
def QueryLast (t : Table) (user_id : Nat) (consistent_read : Bool := false) :
    Option Notification :=
  (RangeQueryDesc t user_id 1).head?

/-- Lines 119-124 of `CreateForUser`: the candidate `notification_id` and
the carried badge, from the last notification or from the empty state. -/
def nextIdBadge : Option Notification → Nat × Nat
  | none => (1, 0)
  | some last_notification =>
    (last_notification.notification_id + 1, last_notification.badge)

/-- Lines 126-149 of `CreateForUser`: assembly of the candidate record
from the operation context, the arguments and the last notification. -/
def buildCandidate (operation : OpContext) (user_id : Nat) (name : String)
    (invalidate : Option JVal) (activity_id viewpoint_id : Option String)
    (seq_num_pair : Option (Option Nat × Option Nat)) (inc_badge : Bool)
    (last_notification : Option Notification) : Notification :=
  let p := nextIdBadge last_notification
  let n0 : Notification := { user_id := user_id, notification_id := p.1 }
  let n1 := { n0 with name := name }
  let n2 := match invalidate with
            | some d => SetInvalidate n1 d
            | none => n1
  let n3 := { n2 with activity_id := activity_id, viewpoint_id := viewpoint_id }
  let n4 := match seq_num_pair with
            | none => n3
            | some (update_seq, viewed_seq) =>
              let na := { n3 with update_seq := update_seq }
              if viewed_seq ≠ none ∧ operation.user_id = user_id then
                { na with viewed_seq := viewed_seq }
              else na
  let badge := if inc_badge then p.2 + 1 else p.2
  { n4 with badge := badge, timestamp := operation.timestamp,
            sender_id := operation.user_id, sender_device_id := operation.device_id,
            op_id := some operation.operation_id }

/-- `TryClearBadge`: assembles a `clear_badges` record with badge 0 at the
caller-supplied id and attempts exactly one conditional create; the
boolean is `_TryUpdate`'s result. -/
def TryClearBadge (t : Table) (user_id device_id notification_id : Nat)
    (now : Nat) : Bool × Table :=
  let notification : Notification :=
    { user_id := user_id, notification_id := notification_id,
      name := "clear_badges", timestamp := now, sender_id := user_id,
      sender_device_id := device_id, badge := 0 }
  let r := condCreate t notification
  (r.2, r.1)

/-- `CreateForUser` run sequentially against the real table with no
interference: each iteration queries the last record, assembles the
candidate and attempts the conditional create; on failure it retries with
`consistent_read = True`.  Fuel bounds the unbounded `while True` loop;
exhaustion is `none` (non-termination, never returned by the code). -/
def CreateForUserRun (operation : OpContext) (user_id : Nat) (name : String)
    (invalidate : Option JVal) (activity_id viewpoint_id : Option String)
    (seq_num_pair : Option (Option Nat × Option Nat)) (inc_badge : Bool) :
    Nat → Table → Bool → Option (Notification × Table)
  | 0, _, _ => none
  | fuel + 1, t, consistent_read =>
    let last_notification := QueryLast t user_id consistent_read
    let notification := buildCandidate operation user_id name invalidate activity_id
      viewpoint_id seq_num_pair inc_badge last_notification
    let r := condCreate t notification
    if r.2 then some (notification, r.1)
    else CreateForUserRun operation user_id name invalidate activity_id viewpoint_id
      seq_num_pair inc_badge fuel r.1 true

end Notification

/-- Abstract store environment for the retry loop under concurrency: at
attempt `k`, `query k consistent_read` is what `QueryLast` returns
(possibly stale under eventual consistency) and `write k` is the store's
response to the conditional write. -/
structure StoreEnv where
  query : Nat → Bool → Option Notification
  write : Nat → Except StoreErr Unit

namespace Notification

/-- The `while True` loop of `CreateForUser` over an abstract store
environment: query, assemble, attempt the write through `_TryUpdate`; on
a `True` result return the committed record, otherwise set
`consistent_read = True` and retry from the query step. -/
def CreateForUserLoop (env : StoreEnv) (operation : OpContext) (user_id : Nat)
    (name : String) (invalidate : Option JVal)
    (activity_id viewpoint_id : Option String)
    (seq_num_pair : Option (Option Nat × Option Nat)) (inc_badge : Bool) :
    Nat → Nat → Bool → Option Notification
  | 0, _, _ => none
  | fuel + 1, k, consistent_read =>
    let notification := buildCandidate operation user_id name invalidate activity_id
      viewpoint_id seq_num_pair inc_badge (env.query k consistent_read)
    if tryUpdateResult (env.write k) then some notification
    else CreateForUserLoop env operation user_id name invalidate activity_id
      viewpoint_id seq_num_pair inc_badge fuel (k + 1) true

end Notification

/-- A history of conditional-create attempts, each a candidate record with
a flag telling whether the store processed the write at all (`false`
models a transient store failure: no side effect).  Returns the final
table and the committed records in commit order.  The attempts may come
from any number of interleaved callers: the store linearizes the atomic
conditional writes. -/
def applyAttempts (t : Table) : List (Notification × Bool) → Table × List Notification
  | [] => (t, [])
  | (n, storeOk) :: rest =>
    if storeOk then
      let r := condCreate t n
      let q := applyAttempts r.1 rest
      (q.1, if r.2 then n :: q.2 else q.2)
    else applyAttempts t rest

/-- No two records of the table share the composite primary key. -/
def NodupKeys (t : Table) : Prop :=
  (t.map fun r => (r.user_id, r.notification_id)).Nodup

open Notification in
theorem buildCandidate_eq (operation : OpContext) (user_id : Nat) (name : String)
    (invalidate : Option JVal) (activity_id viewpoint_id : Option String)
    (seq_num_pair : Option (Option Nat × Option Nat)) (inc_badge : Bool)
    (last_notification : Option Notification) :
    buildCandidate operation user_id name invalidate activity_id viewpoint_id
        seq_num_pair inc_badge last_notification =
      { user_id := user_id,
        notification_id := (nextIdBadge last_notification).1,
        name := name,
        timestamp := operation.timestamp,
        sender_id := operation.user_id,
        sender_device_id := operation.device_id,
        op_id := some operation.operation_id,
        badge := (nextIdBadge last_notification).2 + (if inc_badge then 1 else 0),
        invalidate := invalidate.map jsonDumps,
        activity_id := activity_id,
        viewpoint_id := viewpoint_id,
        update_seq := match seq_num_pair with
                      | none => none
                      | some p => p.1,
        viewed_seq := match seq_num_pair with
                      | none => none
                      | some p =>
                        if p.2 ≠ none ∧ operation.user_id = user_id then p.2
                        else none } := by
  cases invalidate <;>
    cases seq_num_pair with
    | none =>
      cases inc_badge <;> simp [buildCandidate, SetInvalidate, jsonDumps]
    | some p =>
      obtain ⟨u, w⟩ := p
      by_cases hc : w ≠ none ∧ operation.user_id = user_id <;>
        cases inc_badge <;> simp [buildCandidate, SetInvalidate, jsonDumps, hc]

/-! ## Claim theorems -/

/-- C6: the invalidation round-trip is lossless — decoding the encoding of
any nested mapping/sequence/scalar value yields the value back, both at
the codec (`jsonLoads` of `jsonDumps`) and through the record
(`GetInvalidate` of `SetInvalidate`) — and `GetInvalidate` on a record
whose `invalidate` attribute was never set returns the absent value. -/
theorem C6_invalidation_roundtrip :
    (∀ m : JVal, jsonLoads (jsonDumps m) = some m) ∧
    (∀ (n : Notification) (m : JVal),
      (n.SetInvalidate m).GetInvalidate = some m) ∧
    (∀ n : Notification, n.invalidate = none → n.GetInvalidate = none) := by
  refine ⟨jsonLoads_jsonDumps, fun n m => ?_, fun n h => ?_⟩
  · simp [Notification.GetInvalidate, Notification.SetInvalidate, jsonLoads_jsonDumps]
  · simp [Notification.GetInvalidate, h]

theorem C6_witness :
    ({} : Notification).invalidate = none ∧
      ({} : Notification).GetInvalidate = none :=
  ⟨rfl, C6_invalidation_roundtrip.2.2 {} rfl⟩

/-- C2: in an iteration of `CreateForUser`, when `QueryLast` returns the
absent value the candidate id is 1 and the carried badge 0; when it
returns a last record the candidate id is that record's id plus one and
the carried badge is that record's badge.  The candidate record built by
the iteration carries exactly these values (its badge before any
requested increment is the carried badge). -/
theorem C2_next_id_and_carried_badge :
    (∀ (t : Table) (uid : Nat) (c : Bool), Notification.QueryLast t uid c = none →
      Notification.nextIdBadge (Notification.QueryLast t uid c) = (1, 0)) ∧
    (∀ (t : Table) (uid : Nat) (c : Bool) (last : Notification),
      Notification.QueryLast t uid c = some last →
      Notification.nextIdBadge (Notification.QueryLast t uid c) =
        (last.notification_id + 1, last.badge)) ∧
    (∀ operation uid name invalidate activity_id viewpoint_id seq_num_pair inc_badge
        last_notification,
      (Notification.buildCandidate operation uid name invalidate activity_id
          viewpoint_id seq_num_pair inc_badge last_notification).notification_id =
        (Notification.nextIdBadge last_notification).1 ∧
      (Notification.buildCandidate operation uid name invalidate activity_id
          viewpoint_id seq_num_pair false last_notification).badge =
        (Notification.nextIdBadge last_notification).2) := by
  refine ⟨fun t uid c h => ?_, fun t uid c last h => ?_, ?_⟩
  · rw [h]; rfl
  · rw [h]; rfl
  · intro operation uid name invalidate activity_id viewpoint_id seq_num_pair inc_badge
      last_notification
    constructor <;> simp [buildCandidate_eq]

theorem C2_witness :
    (Notification.QueryLast [] 5 false = none ∧
      Notification.nextIdBadge (Notification.QueryLast [] 5 false) = (1, 0)) ∧
    (Notification.QueryLast [{ user_id := 7, notification_id := 3, badge := 4 }] 7 false =
        some { user_id := 7, notification_id := 3, badge := 4 } ∧
      Notification.nextIdBadge
          (Notification.QueryLast [{ user_id := 7, notification_id := 3, badge := 4 }] 7 false) =
        (4, 4)) :=
  ⟨⟨rfl, C2_next_id_and_carried_badge.1 [] 5 false rfl⟩,
   ⟨rfl, C2_next_id_and_carried_badge.2.1
      [{ user_id := 7, notification_id := 3, badge := 4 }] 7 false
      { user_id := 7, notification_id := 3, badge := 4 } rfl⟩⟩

/-- C3: the committed record's badge is the carried badge plus one exactly
when `inc_badge` is set, unchanged otherwise; concretely, from an empty
table two successive calls with `inc_badge = true` commit records with
`(notification_id, badge)` equal to `(1, 1)` and then `(2, 2)`. -/
theorem C3_badge_increment :
    (∀ operation uid name invalidate activity_id viewpoint_id seq_num_pair
        (inc_badge : Bool) last_notification,
      (Notification.buildCandidate operation uid name invalidate activity_id
          viewpoint_id seq_num_pair inc_badge last_notification).badge =
        (Notification.nextIdBadge last_notification).2 +
          (if inc_badge then 1 else 0)) ∧
    ((Notification.CreateForUserRun
          { user_id := 7, device_id := 3, operation_id := "op1", timestamp := 11 }
          7 "share" none none none none true 1 [] false).map
        (fun q => (q.1.notification_id, q.1.badge)) = some (1, 1)) ∧
    (((Notification.CreateForUserRun
          { user_id := 7, device_id := 3, operation_id := "op1", timestamp := 11 }
          7 "share" none none none none true 1 [] false).bind
        (fun q => Notification.CreateForUserRun
          { user_id := 7, device_id := 3, operation_id := "op2", timestamp := 12 }
          7 "comment" none none none none true 1 q.2 false)).map
        (fun q => (q.1.notification_id, q.1.badge)) = some (2, 2)) := by
  refine ⟨?_, by decide, by decide⟩
  intro operation uid name invalidate activity_id viewpoint_id seq_num_pair inc_badge
    last_notification
  simp [buildCandidate_eq]

/-- C4: the candidate's `viewed_seq` is set only when the triggering
operation's user is the target user: whenever they differ it stays
absent, whatever `seq_num_pair` contains. -/
theorem C4_viewed_seq_same_user_only :
    ∀ operation uid name invalidate activity_id viewpoint_id seq_num_pair inc_badge
      last_notification,
      operation.user_id ≠ uid →
      (Notification.buildCandidate operation uid name invalidate activity_id
          viewpoint_id seq_num_pair inc_badge last_notification).viewed_seq = none := by
  intro operation uid name invalidate activity_id viewpoint_id seq_num_pair inc_badge
    last_notification h
  simp only [buildCandidate_eq]
  cases seq_num_pair with
  | none => rfl
  | some p => simp [h]

theorem C4_witness :
    ({ user_id := 1, device_id := 2, operation_id := "o", timestamp := 3 } :
        OpContext).user_id ≠ 9 ∧
    (Notification.buildCandidate
        { user_id := 1, device_id := 2, operation_id := "o", timestamp := 3 }
        9 "share" none none none (some (some 4, some 5)) true none).viewed_seq = none :=
  ⟨by decide, C4_viewed_seq_same_user_only _ 9 "share" none none none
    (some (some 4, some 5)) true none (by decide)⟩

/-- C10: when `seq_num_pair` is supplied, its `update_seq` component is
stored on the candidate unconditionally, whoever triggered the operation;
when it is absent, neither `update_seq` nor `viewed_seq` is set. -/
theorem C10_update_seq_unconditional :
    ∀ operation uid name invalidate activity_id viewpoint_id
      (p : Option Nat × Option Nat) inc_badge last_notification,
      ((Notification.buildCandidate operation uid name invalidate activity_id
          viewpoint_id (some p) inc_badge last_notification).update_seq = p.1) ∧
      ((Notification.buildCandidate operation uid name invalidate activity_id
          viewpoint_id none inc_badge last_notification).update_seq = none) ∧
      ((Notification.buildCandidate operation uid name invalidate activity_id
          viewpoint_id none inc_badge last_notification).viewed_seq = none) := by
  intro operation uid name invalidate activity_id viewpoint_id p inc_badge
    last_notification
  refine ⟨?_, ?_, ?_⟩ <;> simp [buildCandidate_eq]

/-- C7: `TryClearBadge` assembles a `clear_badges` record with badge 0 at
the caller-supplied id and attempts exactly one conditional create: it
returns `true` exactly when this call committed the record (appending it
to the table) and `false`, leaving the table unchanged with no retry,
when a record already existed at that id.  Two calls with the same
`(user_id, notification_id)`: the first returns `true`, the second
`false`, and exactly one record with that key exists afterwards. -/
theorem C7_try_clear_badge :
    (∀ (t : Table) (uid did nid now : Nat),
      ((Notification.TryClearBadge t uid did nid now).1 = true ↔
        keyMem t uid nid = false) ∧
      ((Notification.TryClearBadge t uid did nid now).1 = true →
        (Notification.TryClearBadge t uid did nid now).2 =
          t ++ [{ user_id := uid, notification_id := nid, name := "clear_badges",
                  timestamp := now, sender_id := uid, sender_device_id := did,
                  badge := 0 }]) ∧
      ((Notification.TryClearBadge t uid did nid now).1 = false →
        (Notification.TryClearBadge t uid did nid now).2 = t)) ∧
    (∀ (t : Table) (uid did did2 nid now now2 : Nat), keyMem t uid nid = false →
      (Notification.TryClearBadge t uid did nid now).1 = true ∧
      (Notification.TryClearBadge
          (Notification.TryClearBadge t uid did nid now).2 uid did2 nid now2).1 = false ∧
      ((Notification.TryClearBadge
          (Notification.TryClearBadge t uid did nid now).2 uid did2 nid now2).2.filter
            fun x => x.user_id == uid && x.notification_id == nid).length = 1) := by
  constructor
  · intro t uid did nid now
    by_cases h : keyMem t uid nid <;>
      simp [Notification.TryClearBadge, condCreate, h]
  · intro t uid did did2 nid now now2 hfree
    have hfree2 : ∀ x ∈ t, x.user_id = uid → ¬x.notification_id = nid := by
      simpa [keyMem] using hfree
    have hfilter : t.filter (fun x => x.user_id == uid && x.notification_id == nid) = [] := by
      rw [List.filter_eq_nil_iff]
      intro x hx
      simpa using hfree2 x hx
    have hmem2 : keyMem
        (t ++ [({ user_id := uid, notification_id := nid, name := "clear_badges",
                  timestamp := now, sender_id := uid, sender_device_id := did,
                  badge := 0 } : Notification)]) uid nid = true := by
      simp [keyMem]
    refine ⟨by simp [Notification.TryClearBadge, condCreate, hfree], ?_, ?_⟩ <;>
      simp [Notification.TryClearBadge, condCreate, hfree, hmem2, hfilter]

theorem C7_witness :
    keyMem [] 7 5 = false ∧
    (Notification.TryClearBadge [] 7 3 5 11).1 = true ∧
    (Notification.TryClearBadge (Notification.TryClearBadge [] 7 3 5 11).2 7 4 5 12).1
        = false ∧
    ((Notification.TryClearBadge
        (Notification.TryClearBadge [] 7 3 5 11).2 7 4 5 12).2.filter
          fun x => x.user_id == 7 && x.notification_id == 5).length = 1 := by
  have h := C7_try_clear_badge.2 [] 7 3 4 5 11 12 rfl
  exact ⟨rfl, h.1, h.2.1, h.2.2⟩

/-- C8: `_TryUpdate` converts every exception raised by the conditional
write — a conflict on the target id and a transient store error alike —
to the same `False` retry signal instead of propagating it, and on that
signal `CreateForUser` escalates `consistent_read` to `True` and retries
from the query step. -/
theorem C8_escalate_and_retry :
    (∀ e : StoreErr, tryUpdateResult (Except.error e) = false) ∧
    (tryUpdateResult (Except.ok ()) = true) ∧
    (∀ (env : StoreEnv) (operation : OpContext) (uid : Nat) (name : String)
        (invalidate : Option JVal) (activity_id viewpoint_id : Option String)
        (seq_num_pair : Option (Option Nat × Option Nat)) (inc_badge : Bool)
        (fuel k : Nat) (consistent_read : Bool) (e : StoreErr),
      env.write k = Except.error e →
      Notification.CreateForUserLoop env operation uid name invalidate activity_id
          viewpoint_id seq_num_pair inc_badge (fuel + 1) k consistent_read =
        Notification.CreateForUserLoop env operation uid name invalidate activity_id
          viewpoint_id seq_num_pair inc_badge fuel (k + 1) true) := by
  refine ⟨fun e => rfl, rfl, ?_⟩
  intro env operation uid name invalidate activity_id viewpoint_id seq_num_pair
    inc_badge fuel k consistent_read e hw
  simp [Notification.CreateForUserLoop, hw, tryUpdateResult]

theorem C8_witness :
    ({ query := fun _ _ => none, write := fun _ => Except.error StoreErr.transient } :
        StoreEnv).write 0 = Except.error StoreErr.transient ∧
    Notification.CreateForUserLoop
        { query := fun _ _ => none, write := fun _ => Except.error StoreErr.transient }
        { user_id := 1, device_id := 2, operation_id := "o", timestamp := 3 }
        1 "share" none none none none true 1 0 false =
      Notification.CreateForUserLoop
        { query := fun _ _ => none, write := fun _ => Except.error StoreErr.transient }
        { user_id := 1, device_id := 2, operation_id := "o", timestamp := 3 }
        1 "share" none none none none true 0 1 true :=
  ⟨rfl, C8_escalate_and_retry.2.2
    { query := fun _ _ => none, write := fun _ => Except.error StoreErr.transient }
    { user_id := 1, device_id := 2, operation_id := "o", timestamp := 3 }
    1 "share" none none none none true 0 0 false StoreErr.transient rfl⟩

/-- C9: `CreateForUser` has no sentinel failure return — a returned record
is always one whose conditional write succeeded — and whenever some
attempt's write succeeds within the fuel bound, the loop returns a
committed record. -/
theorem C9_commits_or_loops :
    (∀ (env : StoreEnv) (operation : OpContext) (uid : Nat) (name : String)
        (invalidate : Option JVal) (activity_id viewpoint_id : Option String)
        (seq_num_pair : Option (Option Nat × Option Nat)) (inc_badge : Bool)
        (fuel k : Nat) (consistent_read : Bool) (notification : Notification),
      Notification.CreateForUserLoop env operation uid name invalidate activity_id
          viewpoint_id seq_num_pair inc_badge fuel k consistent_read =
        some notification →
      ∃ j, tryUpdateResult (env.write (k + j)) = true) ∧
    (∀ (env : StoreEnv) (operation : OpContext) (uid : Nat) (name : String)
        (invalidate : Option JVal) (activity_id viewpoint_id : Option String)
        (seq_num_pair : Option (Option Nat × Option Nat)) (inc_badge : Bool)
        (fuel k : Nat) (consistent_read : Bool),
      (∃ j, j < fuel ∧ tryUpdateResult (env.write (k + j)) = true) →
      ∃ notification,
        Notification.CreateForUserLoop env operation uid name invalidate activity_id
            viewpoint_id seq_num_pair inc_badge fuel k consistent_read =
          some notification) := by
  constructor
  · intro env operation uid name invalidate activity_id viewpoint_id seq_num_pair
      inc_badge fuel
    induction fuel with
    | zero =>
      intro k consistent_read notification h
      simp [Notification.CreateForUserLoop] at h
    | succ F ih =>
      intro k consistent_read notification h
      by_cases hw : tryUpdateResult (env.write k) = true
      · exact ⟨0, hw⟩
      · rw [Notification.CreateForUserLoop] at h
        simp only [hw, Bool.false_eq_true, if_false, if_neg] at h
        obtain ⟨j, hj⟩ := ih (k + 1) true notification h
        exact ⟨j + 1, by rwa [show k + (j + 1) = k + 1 + j by omega]⟩
  · intro env operation uid name invalidate activity_id viewpoint_id seq_num_pair
      inc_badge fuel
    induction fuel with
    | zero =>
      intro k consistent_read h
      obtain ⟨j, hj, -⟩ := h
      omega
    | succ F ih =>
      intro k consistent_read h
      by_cases hw : tryUpdateResult (env.write k) = true
      · refine ⟨Notification.buildCandidate operation uid name invalidate activity_id
          viewpoint_id seq_num_pair inc_badge (env.query k consistent_read), ?_⟩
        rw [Notification.CreateForUserLoop]
        simp [hw]
      · obtain ⟨j, hj, hsucc⟩ := h
        cases j with
        | zero => exact absurd hsucc (by simpa using hw)
        | succ j =>
          obtain ⟨notification, hn⟩ :=
            ih (k + 1) true ⟨j, by omega, by rwa [show k + 1 + j = k + (j + 1) by omega]⟩
          refine ⟨notification, ?_⟩
          rw [Notification.CreateForUserLoop]
          simpa [hw] using hn

theorem C9_witness :
    (∃ j, j < 1 ∧ tryUpdateResult
      (({ query := fun _ _ => none, write := fun _ => Except.ok () } : StoreEnv).write
        (0 + j)) = true) ∧
    (∃ notification, Notification.CreateForUserLoop
        { query := fun _ _ => none, write := fun _ => Except.ok () }
        { user_id := 1, device_id := 2, operation_id := "o", timestamp := 3 }
        1 "share" none none none none true 1 0 false = some notification) :=
  ⟨⟨0, Nat.zero_lt_one, rfl⟩,
   C9_commits_or_loops.2
     { query := fun _ _ => none, write := fun _ => Except.ok () }
     { user_id := 1, device_id := 2, operation_id := "o", timestamp := 3 }
     1 "share" none none none none true 1 0 false ⟨0, Nat.zero_lt_one, rfl⟩⟩

theorem queryLast_max (t : Table) (uid : Nat) (c : Bool) (r : Notification)
    (hr : r ∈ t) (hu : r.user_id = uid) :
    ∃ m, Notification.QueryLast t uid c = some m ∧ m ∈ t ∧ m.user_id = uid ∧
      ∀ s ∈ t, s.user_id = uid → s.notification_id ≤ m.notification_id := by
  have hrl : r ∈ t.filter (fun x => x.user_id == uid) :=
    List.mem_filter.mpr ⟨hr, by simp [hu]⟩
  have hperm :=
    List.perm_insertionSort Notification.notifGE (t.filter (fun x => x.user_id == uid))
  have hsorted :=
    List.sorted_insertionSort Notification.notifGE (t.filter (fun x => x.user_id == uid))
  cases hsrt : (t.filter (fun x => x.user_id == uid)).insertionSort Notification.notifGE with
  | nil =>
    rw [hsrt] at hperm
    exact absurd (hperm.symm.subset hrl) (by simp)
  | cons m s2 =>
    rw [hsrt] at hperm hsorted
    have hm : m ∈ t.filter (fun x => x.user_id == uid) :=
      hperm.subset (List.mem_cons_self m s2)
    obtain ⟨hmt, hmu⟩ := List.mem_filter.mp hm
    refine ⟨m, ?_, hmt, by simpa using hmu, ?_⟩
    · rw [Notification.QueryLast, Notification.RangeQueryDesc, hsrt]
      rfl
    · intro s hs hsu
      have hsl : s ∈ t.filter (fun x => x.user_id == uid) :=
        List.mem_filter.mpr ⟨hs, by simp [hsu]⟩
      rcases List.mem_cons.mp (hperm.symm.subset hsl) with h | h
      · simp [h]
      · exact List.rel_of_sorted_cons hsorted s h

/-- C5: `QueryLast` is the head of the descending range scan with limit 1
over the user's records and reads the table without modifying it; it is
absent exactly for a user with no records, and otherwise returns a record
of that user with the maximal `notification_id` — in particular, however
records with ids 1, 2 and 3 were interleaved into the table, it returns
id 3. -/
theorem C5_query_last :
    (∀ (t : Table) (uid : Nat) (c : Bool),
      Notification.QueryLast t uid c = (Notification.RangeQueryDesc t uid 1).head?) ∧
    (∀ (t : Table) (uid : Nat) (c : Bool),
      (∀ r ∈ t, r.user_id ≠ uid) → Notification.QueryLast t uid c = none) ∧
    (∀ (t : Table) (uid : Nat) (c : Bool) (r : Notification), r ∈ t → r.user_id = uid →
      ∃ m, Notification.QueryLast t uid c = some m ∧ m ∈ t ∧ m.user_id = uid ∧
        ∀ s ∈ t, s.user_id = uid → s.notification_id ≤ m.notification_id) ∧
    (∀ t : Table,
      t.Perm [{ user_id := 7, notification_id := 1 },
              { user_id := 7, notification_id := 2 },
              { user_id := 7, notification_id := 3 }] →
      (Notification.QueryLast t 7 false).map (fun m => m.notification_id) = some 3) := by
  refine ⟨fun t uid c => rfl, ?_, queryLast_max, ?_⟩
  · intro t uid c h
    have hfil : t.filter (fun x => x.user_id == uid) = [] := by
      rw [List.filter_eq_nil_iff]
      intro x hx
      simpa using h x hx
    rw [Notification.QueryLast, Notification.RangeQueryDesc, hfil]
    rfl
  · intro t hperm
    have h3 : ({ user_id := 7, notification_id := 3 } : Notification) ∈ t :=
      hperm.symm.subset (by simp)
    obtain ⟨m, hq, hmt, hmu, hmax⟩ := queryLast_max t 7 false _ h3 rfl
    have hge := hmax _ h3 rfl
    have hmem3 := hperm.subset hmt
    simp only [List.mem_cons, List.not_mem_nil, or_false] at hmem3
    rcases hmem3 with h | h | h
    · subst h
      simp at hge
    · subst h
      simp at hge
    · subst h
      simp [hq]

theorem C5_witness :
    Notification.QueryLast [] 4 false = none ∧
    (Notification.QueryLast
        [{ user_id := 7, notification_id := 2 },
         { user_id := 7, notification_id := 3 },
         { user_id := 7, notification_id := 1 }] 7 false).map
      (fun m => m.notification_id) = some 3 :=
  ⟨C5_query_last.2.1 [] 4 false (by simp),
   C5_query_last.2.2.2 _ (by decide)⟩

theorem keyMem_false_iff (t : Table) (uid nid : Nat) :
    keyMem t uid nid = false ↔
      ∀ r ∈ t, ¬(r.user_id = uid ∧ r.notification_id = nid) := by
  simp [keyMem, List.any_eq_false, not_and]

theorem applyAttempts_table (t : Table) (attempts : List (Notification × Bool)) :
    (applyAttempts t attempts).1 = t ++ (applyAttempts t attempts).2 := by
  induction attempts generalizing t with
  | nil => simp [applyAttempts]
  | cons a rest ih =>
    obtain ⟨n, ok⟩ := a
    cases ok <;> by_cases hk : keyMem t n.user_id n.notification_id = true <;>
      simp [applyAttempts, condCreate, hk, ih]

theorem applyAttempts_nodup (t : Table) (attempts : List (Notification × Bool))
    (ht : NodupKeys t) : NodupKeys (applyAttempts t attempts).1 := by
  induction attempts generalizing t with
  | nil => simpa [applyAttempts]
  | cons a rest ih =>
    obtain ⟨n, ok⟩ := a
    cases ok with
    | false => simpa [applyAttempts] using ih t ht
    | true =>
      by_cases hk : keyMem t n.user_id n.notification_id = true
      · simpa [applyAttempts, condCreate, hk] using ih t ht
      · have hk2 := (keyMem_false_iff t n.user_id n.notification_id).mp
          (by simpa using hk)
        have ht2 : NodupKeys (t ++ [n]) := by
          simp only [NodupKeys, List.map_append, List.map_cons, List.map_nil,
            List.nodup_append, List.nodup_cons, List.nodup_nil, List.Disjoint]
          refine ⟨ht, by simp, ?_⟩
          intro p hp hpn
          obtain ⟨r, hr, rfl⟩ := List.mem_map.mp hp
          simp only [List.mem_singleton] at hpn
          exact hk2 r hr ⟨congrArg Prod.fst hpn, congrArg Prod.snd hpn⟩
        simpa [applyAttempts, condCreate, hk] using ih (t ++ [n]) ht2

theorem nodup_nid_of_nodup_key (l : List Notification) (uid : Nat)
    (h : (l.map fun r => (r.user_id, r.notification_id)).Nodup) :
    ((l.filter fun r => r.user_id == uid).map fun r => r.notification_id).Nodup := by
  induction l with
  | nil => simp
  | cons r l ih =>
    simp only [List.map_cons, List.nodup_cons] at h
    obtain ⟨hr, hl⟩ := h
    by_cases hu : r.user_id = uid
    · rw [List.filter_cons_of_pos (by simp [hu])]
      simp only [List.map_cons, List.nodup_cons]
      refine ⟨?_, ih hl⟩
      intro hmem
      obtain ⟨s, hs, hsnid⟩ := List.mem_map.mp hmem
      obtain ⟨hsl, hsu⟩ := List.mem_filter.mp hs
      apply hr
      refine List.mem_map.mpr ⟨s, hsl, ?_⟩
      have hsu2 : s.user_id = uid := by simpa using hsu
      rw [hsnid, hsu2, hu]
    · rw [List.filter_cons_of_neg (by simp [hu])]
      exact ih hl

/-- C1: every write is an insert-if-absent conditional create — it
succeeds exactly when no record exists at `(user_id, notification_id)`,
appends the record on success and changes nothing on failure — so across
any linearized history of create attempts, from any mix of sequential or
concurrent callers, the table never holds two records with one key and
the ids committed for any one user are pairwise distinct: N successful
creates commit exactly N distinct `notification_id` values. -/
theorem C1_insert_if_absent_unique_ids :
    (∀ (t : Table) (n : Notification),
      ((condCreate t n).2 = true ↔ keyMem t n.user_id n.notification_id = false) ∧
      ((condCreate t n).2 = true → (condCreate t n).1 = t ++ [n]) ∧
      ((condCreate t n).2 = false → (condCreate t n).1 = t)) ∧
    (∀ (t : Table) (attempts : List (Notification × Bool)), NodupKeys t →
      NodupKeys (applyAttempts t attempts).1 ∧
      ((applyAttempts t attempts).2.map
          fun r => (r.user_id, r.notification_id)).Nodup ∧
      ∀ uid, (((applyAttempts t attempts).2.filter fun r => r.user_id == uid).map
          fun r => r.notification_id).Nodup) := by
  constructor
  · intro t n
    by_cases hk : keyMem t n.user_id n.notification_id = true <;>
      simp [condCreate, hk]
  · intro t attempts ht
    have hfinal := applyAttempts_nodup t attempts ht
    have hcommitted : ((applyAttempts t attempts).2.map
        fun r => (r.user_id, r.notification_id)).Nodup := by
      have := hfinal
      rw [applyAttempts_table] at this
      simp only [NodupKeys, List.map_append, List.nodup_append] at this
      exact this.2.1
    exact ⟨hfinal, hcommitted,
      fun uid => nodup_nid_of_nodup_key _ uid hcommitted⟩

theorem C1_witness :
    NodupKeys ([] : Table) ∧
    NodupKeys (applyAttempts []
      [({ user_id := 7, notification_id := 1, name := "a" }, true),
       ({ user_id := 7, notification_id := 1, name := "b" }, true),
       ({ user_id := 7, notification_id := 2, name := "b" }, true)]).1 ∧
    ((applyAttempts []
      [({ user_id := 7, notification_id := 1, name := "a" }, true),
       ({ user_id := 7, notification_id := 1, name := "b" }, true),
       ({ user_id := 7, notification_id := 2, name := "b" }, true)]).2.filter
        fun r => r.user_id == 7).map (fun r => r.notification_id) = [1, 2] ∧
    (((applyAttempts []
      [({ user_id := 7, notification_id := 1, name := "a" }, true),
       ({ user_id := 7, notification_id := 1, name := "b" }, true),
       ({ user_id := 7, notification_id := 2, name := "b" }, true)]).2.filter
        fun r => r.user_id == 7).map (fun r => r.notification_id)).Nodup := by
  have h := C1_insert_if_absent_unique_ids.2 []
    [({ user_id := 7, notification_id := 1, name := "a" }, true),
     ({ user_id := 7, notification_id := 1, name := "b" }, true),
     ({ user_id := 7, notification_id := 2, name := "b" }, true)] (by simp [NodupKeys])
  exact ⟨by simp [NodupKeys], h.1, by decide, h.2.2 7⟩
